import Mathlib

/-!
Verification development for the yt downloader service, a small express
server that shells out to the yt-dlp command-line tool.  The repository
has three variants of the server: src/server.js, src/unnamed/part_000 and
src/unnamed/part_001.

The definitions below are shallow embeddings of the helper functions and
handler fragments of those files.  Strings are Lean strings (lists of
characters), filesystem directories are lists of entries, clock times are
integers or naturals in milliseconds.  Each definition carries a comment
pointing at the source lines it embeds.
-/

/-! ### Sanitizer

src/server.js lines 50-52 and src/unnamed/part_000 lines 47-49:
a global regex replace that deletes every occurrence of the eight
characters of the class (backtick, dollar, backslash, pipe, semicolon,
ampersand, greater-than, less-than) and keeps everything else unchanged.
-/

/-- The character class of the sanitizer's regex.  Character code 96 is
the backtick. -/
def isBlockedChar (c : Char) : Bool :=
  c = Char.ofNat 96 || c = '$' || c = '\\' || c = '|' ||
    c = ';' || c = '&' || c = '>' || c = '<'

/-- Character-by-character embedding of the global replace-with-empty. -/
def sanitizeChars : List Char → List Char
  | [] => []
  | c :: cs => if isBlockedChar c then sanitizeChars cs else c :: sanitizeChars cs

/-- src/server.js line 50: sanitizeShellInput. -/
def sanitizeShellInput (input : String) : String :=
  String.mk (sanitizeChars input.data)

/-! ### Process executor

src/server.js lines 54-64 (identical in src/unnamed/part_000 lines 51-61):
executeYtDlp maps each argument through the sanitizer, wraps it in double
quotes, joins the quoted arguments with spaces after the literal
"yt-dlp ", and hands the resulting single string to node's
child_process.exec, which passes it to a shell.
-/

/-- One element of safeArgs (src/server.js line 55): the sanitized
argument wrapped in double quotes. -/
def quoteArg (arg : String) : String :=
  "\"" ++ sanitizeShellInput arg ++ "\""

/-- Array.prototype.join with a single space (src/server.js line 56). -/
def joinSpace : List String → String
  | [] => ""
  | [s] => s
  | s :: rest => s ++ " " ++ joinSpace rest

/-- The single command string built by executeYtDlp and handed to the
shell via exec (src/server.js lines 55-56). -/
def executeYtDlpCommand (args : List String) : String :=
  "yt-dlp " ++ joinSpace (args.map quoteArg)

/-! ### Source normalizer

src/server.js lines 32-48 (identical in src/unnamed/part_000 lines
29-45).  normalizeUrl tries three regexes in order, each anchored on a
literal host-and-path fragment followed by a capture of exactly eleven
characters of the class letters, digits, underscore, hyphen.  A JS
String.match scans left to right and succeeds at the first position where
the whole pattern matches.  The first two branches rewrite to the
canonical watch link built from the captured id; the third returns the
input itself; with no match the function returns null (embedded as none).
-/

/-- The regex character class of the video-id capture groups. -/
def isIdChar (c : Char) : Bool :=
  ('a' ≤ c && c ≤ 'z') || ('A' ≤ c && c ≤ 'Z') ||
    ('0' ≤ c && c ≤ '9') || c = '_' || c = '-'

/-- Match exactly k id-class characters at the front of the list and
return them (the capture group of the regexes). -/
def takeIdChars : Nat → List Char → Option (List Char)
  | 0, _ => some []
  | _ + 1, [] => none
  | k + 1, c :: cs =>
    if isIdChar c then (takeIdChars k cs).map (fun r => c :: r) else none

/-- Match the literal pattern at the front of the list, then capture k
id-class characters. -/
def matchAtCapture : List Char → Nat → List Char → Option (List Char)
  | [], k, s => takeIdChars k s
  | _ :: _, _, [] => none
  | p :: ps, k, c :: cs => if p = c then matchAtCapture ps k cs else none

/-- Left-to-right regex search: try the pattern at every position and
return the first capture (JS String.match semantics for these anchored
literal-head patterns). -/
def searchCapture (pat : List Char) (k : Nat) : List Char → Option (List Char)
  | [] => none
  | c :: cs =>
    match matchAtCapture pat k (c :: cs) with
    | some cap => some cap
    | none => searchCapture pat k cs

/-- Literal head of the shorts regex (src/server.js line 36). -/
def shortsPat : List Char := "youtube.com/shorts/".data

/-- Literal head of the short-host regex (src/server.js line 40). -/
def shortHostPat : List Char := "youtu.be/".data

/-- Literal head of the watch-link regex (src/server.js line 44). -/
def watchPat : List Char := "youtube.com/watch?v=".data

/-- The canonical watch-link stem the normalizer rewrites to
(src/server.js lines 37 and 41). -/
def watchStem : List Char := "https://www.youtube.com/watch?v=".data

/-- First twelve characters of the canonical stem, before the watch
pattern starts. -/
def stem12 : List Char := "https://www.".data

/-- The watch pattern with its head character split off. -/
def watchTail : List Char := "outube.com/watch?v=".data

/-- Core of normalizeUrl on character lists (src/server.js lines 32-48).
The empty-input guard embeds the falsy check on line 33. -/
def normalizeUrlChars (l : List Char) : Option (List Char) :=
  if l = [] then none
  else
    match searchCapture shortsPat 11 l with
    | some id => some (watchStem ++ id)
    | none =>
      match searchCapture shortHostPat 11 l with
      | some id => some (watchStem ++ id)
      | none =>
        match searchCapture watchPat 11 l with
        | some _ => some l
        | none => none

/-- src/server.js line 32: normalizeUrl; none embeds the null return. -/
def normalizeUrl (url : String) : Option String :=
  (normalizeUrlChars url.data).map String.mk

/-- The call-site composition at src/server.js line 99 and
src/unnamed/part_000 lines 292 and 317: normalizeUrl(url) or-else url. -/
def normalizeUrlOrSelf (url : String) : String :=
  (normalizeUrl url).getD url

/-! ### Garbage-collection sweep

src/server.js lines 165-193 and src/unnamed/part_000 lines 194-222:
cleanupOldFiles lists the temp directory and unlinks every file whose
age, now minus mtimeMs, is strictly greater than maxAge.
-/

/-- A directory entry as seen by the sweep: a name and a last-modified
time in milliseconds. -/
structure TempFile where
  name : String
  mtimeMs : Int
deriving DecidableEq

/-- The deletion test on src/server.js line 178: now - mtimeMs > maxAge. -/
def sweepDeletes (now maxAge : Int) (f : TempFile) : Bool :=
  decide (now - f.mtimeMs > maxAge)

/-- One sweep of cleanupOldFiles: the directory after every file passing
the deletion test has been unlinked. -/
def cleanupOldFiles (now maxAge : Int) (files : List TempFile) : List TempFile :=
  files.filter (fun f => !sweepDeletes now maxAge f)

/-- src/server.js line 171: maxAge is thirty minutes. -/
def serverJsMaxAge : Int := 30 * 60 * 1000

/-- src/unnamed/part_000 line 200: maxAge is two hours. -/
def part000MaxAge : Int := 2 * 60 * 60 * 1000

/-! ### Output resolver

src/unnamed/part_001 lines 100-104: after the tool exits, the handler
filters the directory listing to names starting with the job id, throws
if the filter is empty, and otherwise uses element zero of the filtered
listing, in directory order; the entry sizes are never consulted.
-/

/-- A directory entry with its size, as the resolver claim speaks of
sizes. -/
structure DirEntry where
  name : String
  size : Nat
deriving DecidableEq

/-- src/unnamed/part_001 lines 100-104: the name the handler serves,
none embeds the thrown no-output error. -/
def resolveDownloadFile (id : String) (entries : List DirEntry) : Option String :=
  match entries.filter (fun e => id.data.isPrefixOf e.name.data) with
  | [] => none
  | e :: _ => some e.name

/-! ### Failure-path cleanup

src/unnamed/part_000 lines 390-398: the catch branch of the download
handler unlinks the output path if it exists before answering 500.
src/server.js lines 136-142: the catch branch of the same handler only
logs and answers 500; it performs no filesystem operation at all.
-/

/-- src/unnamed/part_000 lines 393-398: existsSync check then unlink. -/
def part000FailureCleanup (filepath : String) (dir : List String) : List String :=
  if dir.contains filepath then dir.filter (fun f => f != filepath) else dir

/-- src/server.js lines 136-142: the catch branch leaves the directory
untouched. -/
def serverJsFailureCleanup (_filepath : String) (dir : List String) : List String :=
  dir

/-! ### Post-execution success check

src/server.js lines 115-121 and src/unnamed/part_000 lines 355-361:
after the tool exits the handler throws unless existsSync(filepath), then
reads statSync(filepath).size into the success response.  No comparison
of the size against zero is ever made.
-/

/-- The directory is a list of name-size pairs; the result is the size
reported in the success response, none embedding the thrown
file-not-created error. -/
def downloadSuccessCheck (filepath : String) (dir : List (String × Nat)) : Option Nat :=
  (dir.find? (fun e => e.1 == filepath)).map (fun e => e.2)

/-! ### Job ids of the part_001 variant

src/unnamed/part_001 lines 82-83: the id is the template string of
"yt-" followed by Date.now(), and the output template appends the
extension placeholder.  The request body is never consulted.  The decimal
rendering of the millisecond clock below models the JS number-to-string
interpolation.
-/

/-- The character of one decimal digit. -/
def digitChar (d : Nat) : Char := Char.ofNat (48 + d)

/-- Decimal digits of n, most significant first; the first argument is
structural fuel always instantiated above n. -/
def toDecimalAux : Nat → Nat → List Char
  | 0, _ => []
  | fuel + 1, n =>
    if n < 10 then [digitChar n]
    else toDecimalAux fuel (n / 10) ++ [digitChar (n % 10)]

/-- JS number-to-string conversion for a nonnegative integer clock. -/
def natToString (n : Nat) : String := String.mk (toDecimalAux (n + 1) n)

/-- Reads a decimal digit string back; left inverse of the rendering. -/
def decodeDecimal (l : List Char) : Nat :=
  l.foldl (fun a c => 10 * a + (c.toNat - 48)) 0

/-- The request body of POST /download in src/unnamed/part_001 line 72:
url, optional search term, media type. -/
structure Part001Request where
  url : String
  search : Option String
  mediaType : String
deriving DecidableEq

/-- src/unnamed/part_001 line 82: the job id is derived from the clock
alone; the request is ignored. -/
def part001JobId (_req : Part001Request) (nowMs : Nat) : String :=
  "yt-" ++ natToString nowMs

/-- src/unnamed/part_001 line 83: the output filename template. -/
def part001OutputName (req : Part001Request) (nowMs : Nat) : String :=
  part001JobId req nowMs ++ ".%(ext)s"

/-! ### Retrieval endpoints

src/unnamed/part_000 lines 409-430 (GET /stream/:filename) and lines
433-449 (GET /file/:filename), and src/unnamed/part_001 lines 118-122
(GET /file/:name): each joins the temp directory with the raw route
parameter via node's path.join, answers 404 when existsSync fails on the
joined path, and otherwise serves the joined path.  No check confines the
joined path under the temp directory.  Paths are modelled as segment
lists and path.join's dot-dot normalization is modelled explicitly.
-/

/-- Splits a route parameter on slashes (accumulator holds the current
segment reversed). -/
def splitSegsAux (cur : List Char) : List Char → List String
  | [] => [String.mk cur.reverse]
  | c :: cs =>
    if c = '/' then String.mk cur.reverse :: splitSegsAux [] cs
    else splitSegsAux (c :: cur) cs

/-- Splits a route parameter on slashes. -/
def splitSegs (s : String) : List String := splitSegsAux [] s.data

/-- Node path.join normalization over segments: empty and dot segments
vanish, dot-dot pops the last segment. -/
def resolveSegs : List String → List String → List String
  | acc, [] => acc
  | acc, seg :: rest =>
    if seg = "" || seg = "." then resolveSegs acc rest
    else if seg = ".." then resolveSegs acc.dropLast rest
    else resolveSegs (acc ++ [seg]) rest

/-- The TEMP_DIR the handlers join against, as segments. -/
def tempDirSegs : List String := ["app", "temp"]

/-- path.join(TEMP_DIR, name) for a raw route parameter. -/
def joinPath (dir : List String) (name : String) : List String :=
  resolveSegs dir (splitSegs name)

/-- The retrieval handlers (src/unnamed/part_000 lines 409-449,
src/unnamed/part_001 lines 118-122): resolve the path, 404 when it does
not exist, otherwise serve exactly that path. -/
def fileEndpoint (dir : List (List String)) (name : String) : Option (List String) :=
  if joinPath tempDirSegs name ∈ dir then some (joinPath tempDirSegs name) else none

/-! ### Helper lemmas -/

/-- The sanitizer is the filter dropping the blocked characters. -/
theorem sanitizeChars_eq_filter (l : List Char) :
    sanitizeChars l = l.filter (fun c => !isBlockedChar c) := by
  induction l with
  | nil => rfl
  | cons c cs ih =>
    by_cases h : isBlockedChar c
    · simp [sanitizeChars, List.filter_cons, h, ih]
    · simp [sanitizeChars, List.filter_cons, h, ih]

/-- Every element of a list occurs inside its space-join. -/
theorem mem_joinSpace_infix {l : List String} {s : String} (h : s ∈ l) :
    s.data <:+: (joinSpace l).data := by
  induction l with
  | nil => exact absurd h (List.not_mem_nil s)
  | cons x rest ih =>
    match rest with
    | [] =>
      have hx : s = x := by simpa using h
      subst hx
      exact List.infix_refl s.data
    | y :: rest' =>
      rcases List.mem_cons.mp h with h1 | h2
      · subst h1
        show s.data <:+: (s ++ " " ++ joinSpace (y :: rest')).data
        rw [String.data_append, String.data_append]
        exact List.IsPrefix.isInfix
          ((List.prefix_append s.data _).trans (List.prefix_append _ _))
      · have hi := ih h2
        show s.data <:+: (x ++ " " ++ joinSpace (y :: rest')).data
        rw [String.data_append, String.data_append]
        obtain ⟨u, v, huv⟩ := hi
        exact ⟨x.data ++ " ".data ++ u, v, by rw [← huv]; simp⟩

/-- A successful anchored match consumes at least the pattern plus the
capture. -/
theorem matchAtCapture_some_le {pat : List Char} {k : Nat} {s cap : List Char}
    (h : matchAtCapture pat k s = some cap) : pat.length + k ≤ s.length := by
  induction pat generalizing s with
  | nil =>
    simp only [matchAtCapture] at h
    induction k generalizing s cap with
    | zero => simp
    | succ k ih =>
      match s with
      | [] => simp [takeIdChars] at h
      | c :: cs =>
        simp only [takeIdChars] at h
        split at h
        · rw [Option.map_eq_some'] at h
          obtain ⟨r, hr, _⟩ := h
          have := ih hr
          simpa using Nat.succ_le_succ this
        · exact absurd h (by simp)
  | cons p ps ih =>
    match s with
    | [] => simp [matchAtCapture] at h
    | c :: cs =>
      simp only [matchAtCapture] at h
      split at h
      · have := ih h
        simp only [List.length_cons]
        omega
      · exact absurd h (by simp)

/-- A search over a string shorter than pattern plus capture fails. -/
theorem searchCapture_none_of_short {pat : List Char} {k : Nat} {s : List Char}
    (h : s.length < pat.length + k) : searchCapture pat k s = none := by
  induction s with
  | nil => rfl
  | cons c cs ih =>
    simp only [searchCapture]
    have h1 : matchAtCapture pat k (c :: cs) = none := by
      cases hm : matchAtCapture pat k (c :: cs) with
      | none => rfl
      | some cap => exact absurd (matchAtCapture_some_le hm) (by omega)
    rw [h1]
    exact ih (by simp at h ⊢; omega)

/-- Searching skips over a region free of the pattern's head character. -/
theorem searchCapture_append_of_head_notMem {pat : List Char} {p : Char} {k : Nat}
    {l1 l2 : List Char} (hp : pat.head? = some p) (h : p ∉ l1) :
    searchCapture pat k (l1 ++ l2) = searchCapture pat k l2 := by
  match pat, hp with
  | q :: qs, hp =>
    have hq : q = p := by simpa using hp
    subst hq
    induction l1 with
    | nil => rfl
    | cons c cs ih =>
      have hpc : q ≠ c := fun he => h (he ▸ List.mem_cons_self c cs)
      simp only [List.cons_append, searchCapture, matchAtCapture, if_neg hpc]
      exact ih (fun hm => h (List.mem_cons_of_mem c hm))

/-- Matching a pattern against itself followed by a rest succeeds into
the capture. -/
theorem matchAtCapture_self (pat : List Char) (k : Nat) (rest : List Char) :
    matchAtCapture pat k (pat ++ rest) = takeIdChars k rest := by
  induction pat with
  | nil => rfl
  | cons p ps ih => simp [matchAtCapture, ih]

/-- Capturing eleven id characters from an eleven-long id list returns
the whole list. -/
theorem takeIdChars_full {l : List Char} (h1 : l.length = 11)
    (h2 : ∀ c ∈ l, isIdChar c = true) : takeIdChars 11 l = some l := by
  suffices h : ∀ k (l : List Char), l.length = k → (∀ c ∈ l, isIdChar c = true) →
      takeIdChars k l = some l from h 11 l h1 h2
  intro k
  induction k with
  | zero => intro l hl _; simp [List.length_eq_zero.mp hl, takeIdChars]
  | succ k ih =>
    intro l hl hall
    match l with
    | c :: cs =>
      have hc : isIdChar c = true := hall c (List.mem_cons_self c cs)
      simp only [takeIdChars, if_pos hc]
      rw [ih cs (by simpa using hl) (fun x hx => hall x (List.mem_cons_of_mem c hx))]
      rfl

/-- The canonical stem splits into its first twelve characters and the
watch pattern. -/
theorem watchStem_decomp : watchStem = stem12 ++ watchPat := by decide

/-- The watch pattern with its head character split off. -/
theorem watchPat_cons : watchPat = 'y' :: watchTail := by decide

/-- One failing search step. -/
theorem searchCapture_cons_none {pat : List Char} {k : Nat} {c : Char} {cs : List Char}
    (h : matchAtCapture pat k (c :: cs) = none) :
    searchCapture pat k (c :: cs) = searchCapture pat k cs := by
  simp [searchCapture, h]

/-- One succeeding search step. -/
theorem searchCapture_cons_some {pat : List Char} {k : Nat} {c : Char} {cs cap : List Char}
    (h : matchAtCapture pat k (c :: cs) = some cap) :
    searchCapture pat k (c :: cs) = some cap := by
  simp [searchCapture, h]

/-- The shorts pattern never occurs in a canonical watch link. -/
theorem shorts_search_canonical {id : List Char} (h : id.length ≤ 11) :
    searchCapture shortsPat 11 (watchStem ++ id) = none := by
  rw [watchStem_decomp, List.append_assoc,
    searchCapture_append_of_head_notMem (rfl : shortsPat.head? = some 'y')
      (by decide : 'y' ∉ stem12)]
  rw [watchPat_cons, List.cons_append]
  rw [searchCapture_cons_none (by rw [← List.cons_append, ← watchPat_cons]; rfl)]
  rw [searchCapture_append_of_head_notMem (rfl : shortsPat.head? = some 'y')
    (by decide : 'y' ∉ watchTail)]
  exact searchCapture_none_of_short (by simpa [shortsPat] using by omega)

/-- The short-host pattern never occurs in a canonical watch link. -/
theorem shortHost_search_canonical {id : List Char} (h : id.length ≤ 11) :
    searchCapture shortHostPat 11 (watchStem ++ id) = none := by
  rw [watchStem_decomp, List.append_assoc,
    searchCapture_append_of_head_notMem (rfl : shortHostPat.head? = some 'y')
      (by decide : 'y' ∉ stem12)]
  rw [watchPat_cons, List.cons_append]
  rw [searchCapture_cons_none (by rw [← List.cons_append, ← watchPat_cons]; rfl)]
  rw [searchCapture_append_of_head_notMem (rfl : shortHostPat.head? = some 'y')
    (by decide : 'y' ∉ watchTail)]
  exact searchCapture_none_of_short (by simp [shortHostPat]; omega)

/-- Searching a canonical watch link for the watch pattern captures its
id. -/
theorem watch_search_canonical {id : List Char} (h1 : id.length = 11)
    (h2 : ∀ c ∈ id, isIdChar c = true) :
    searchCapture watchPat 11 (watchStem ++ id) = some id := by
  rw [watchStem_decomp, List.append_assoc,
    searchCapture_append_of_head_notMem (rfl : watchPat.head? = some 'y')
      (by decide : 'y' ∉ stem12)]
  rw [watchPat_cons, List.cons_append]
  apply searchCapture_cons_some
  rw [← List.cons_append, ← watchPat_cons, matchAtCapture_self]
  exact takeIdChars_full h1 h2

/-- The capture of takeIdChars has the requested length and consists of
id characters. -/
theorem takeIdChars_props : ∀ {k : Nat} {l cap : List Char},
    takeIdChars k l = some cap → cap.length = k ∧ ∀ c ∈ cap, isIdChar c = true := by
  intro k
  induction k with
  | zero =>
    intro l cap h
    simp [takeIdChars] at h
    subst h
    exact ⟨rfl, by simp⟩
  | succ k ih =>
    intro l cap h
    match l with
    | [] => simp [takeIdChars] at h
    | c :: cs =>
      simp only [takeIdChars] at h
      split at h
      · rw [Option.map_eq_some'] at h
        obtain ⟨r, hr, hcap⟩ := h
        obtain ⟨hlen, hall⟩ := ih hr
        subst hcap
        refine ⟨by simp [hlen], ?_⟩
        intro x hx
        rcases List.mem_cons.mp hx with h1 | h2
        · subst h1; assumption
        · exact hall x h2
      · exact absurd h (by simp)

/-- The capture of an anchored match has the requested length and
consists of id characters. -/
theorem matchAtCapture_props {pat : List Char} {k : Nat} {s cap : List Char}
    (h : matchAtCapture pat k s = some cap) :
    cap.length = k ∧ ∀ c ∈ cap, isIdChar c = true := by
  induction pat generalizing s with
  | nil => exact takeIdChars_props h
  | cons p ps ih =>
    match s with
    | [] => simp [matchAtCapture] at h
    | c :: cs =>
      simp only [matchAtCapture] at h
      split at h
      · exact ih h
      · exact absurd h (by simp)

/-- The capture of a search has the requested length and consists of id
characters. -/
theorem searchCapture_props {pat : List Char} {k : Nat} {s cap : List Char}
    (h : searchCapture pat k s = some cap) :
    cap.length = k ∧ ∀ c ∈ cap, isIdChar c = true := by
  induction s with
  | nil => simp [searchCapture] at h
  | cons c cs ih =>
    simp only [searchCapture] at h
    split at h
    · injection h with h; subst h; exact matchAtCapture_props (by assumption)
    · exact ih h

/-- Branch equation: the shorts regex fires. -/
theorem normalizeUrlChars_eq_of_shorts {l id : List Char} (hnil : l ≠ [])
    (hs : searchCapture shortsPat 11 l = some id) :
    normalizeUrlChars l = some (watchStem ++ id) := by
  unfold normalizeUrlChars
  rw [if_neg hnil, hs]

/-- Branch equation: the short-host regex fires. -/
theorem normalizeUrlChars_eq_of_shortHost {l id : List Char} (hnil : l ≠ [])
    (hs : searchCapture shortsPat 11 l = none)
    (hh : searchCapture shortHostPat 11 l = some id) :
    normalizeUrlChars l = some (watchStem ++ id) := by
  unfold normalizeUrlChars
  rw [if_neg hnil, hs, hh]

/-- Branch equation: only the watch regex fires. -/
theorem normalizeUrlChars_eq_of_watch {l cap : List Char} (hnil : l ≠ [])
    (hs : searchCapture shortsPat 11 l = none)
    (hh : searchCapture shortHostPat 11 l = none)
    (hw : searchCapture watchPat 11 l = some cap) :
    normalizeUrlChars l = some l := by
  unfold normalizeUrlChars
  rw [if_neg hnil, hs, hh, hw]

/-- Branch equation: no regex fires. -/
theorem normalizeUrlChars_eq_none {l : List Char}
    (hs : searchCapture shortsPat 11 l = none)
    (hh : searchCapture shortHostPat 11 l = none)
    (hw : searchCapture watchPat 11 l = none) :
    normalizeUrlChars l = none := by
  by_cases hnil : l = []
  · rw [hnil]; rfl
  · unfold normalizeUrlChars
    rw [if_neg hnil, hs, hh, hw]

/-- A canonical watch link is a fixed point of the normalizer core. -/
theorem normalizeUrlChars_canonical {id : List Char} (h1 : id.length = 11)
    (h2 : ∀ c ∈ id, isIdChar c = true) :
    normalizeUrlChars (watchStem ++ id) = some (watchStem ++ id) := by
  have hne : watchStem ++ id ≠ [] := fun hc =>
    absurd (List.append_eq_nil.mp hc).1 (by decide)
  exact normalizeUrlChars_eq_of_watch hne
    (shorts_search_canonical (le_of_eq h1))
    (shortHost_search_canonical (le_of_eq h1))
    (watch_search_canonical h1 h2)

/-- The normalizer core is idempotent on its successes. -/
theorem normalizeUrlChars_idem {l m : List Char} (h : normalizeUrlChars l = some m) :
    normalizeUrlChars m = some m := by
  by_cases hnil : l = []
  · rw [hnil] at h; simp [normalizeUrlChars] at h
  · cases hs : searchCapture shortsPat 11 l with
    | some id =>
      rw [normalizeUrlChars_eq_of_shorts hnil hs] at h
      injection h with h
      obtain ⟨hlen, hall⟩ := searchCapture_props hs
      rw [← h]
      exact normalizeUrlChars_canonical hlen hall
    | none =>
      cases hh : searchCapture shortHostPat 11 l with
      | some id =>
        rw [normalizeUrlChars_eq_of_shortHost hnil hs hh] at h
        injection h with h
        obtain ⟨hlen, hall⟩ := searchCapture_props hh
        rw [← h]
        exact normalizeUrlChars_canonical hlen hall
      | none =>
        cases hw : searchCapture watchPat 11 l with
        | some cap =>
          rw [normalizeUrlChars_eq_of_watch hnil hs hh hw] at h
          injection h with h
          rw [← h]
          exact normalizeUrlChars_eq_of_watch hnil hs hh hw
        | none =>
          rw [normalizeUrlChars_eq_none hs hh hw] at h
          exact absurd h (by simp)

/-- The digit characters decode back to their digits. -/
theorem digitChar_toNat {d : Nat} (h : d < 10) : (digitChar d).toNat = 48 + d := by
  interval_cases d <;> decide

/-- Decoding the decimal rendering recovers the number. -/
theorem decode_toDecimalAux : ∀ n : Nat, ∀ fuel, n < fuel →
    decodeDecimal (toDecimalAux fuel n) = n := by
  intro n
  induction n using Nat.strong_induction_on with
  | _ n ih =>
    intro fuel hf
    match fuel, hf with
    | fuel + 1, hf =>
      by_cases h10 : n < 10
      · simp [toDecimalAux, h10, decodeDecimal, List.foldl, digitChar_toNat h10]
      · have hn0 : 0 < n := by omega
        have hdiv : n / 10 < n := Nat.div_lt_self hn0 (by omega)
        have hfit : n / 10 < fuel := by omega
        have ihd := ih (n / 10) hdiv fuel hfit
        simp only [toDecimalAux, if_neg h10]
        unfold decodeDecimal at ihd ⊢
        rw [List.foldl_append, ihd]
        have hm : (digitChar (n % 10)).toNat = 48 + n % 10 :=
          digitChar_toNat (Nat.mod_lt n (by omega))
        simp [List.foldl, hm]
        omega

/-- The decimal rendering of the clock is injective. -/
theorem natToString_inj {m n : Nat} (h : natToString m = natToString n) : m = n := by
  have hd : toDecimalAux (m + 1) m = toDecimalAux (n + 1) n :=
    congrArg String.data h
  have hm := decode_toDecimalAux m (m + 1) (by omega)
  have hn := decode_toDecimalAux n (n + 1) (by omega)
  rw [hd, hn] at hm
  omega

/-- Two part_001 job ids agree exactly when their clocks agree. -/
theorem part001JobId_eq_iff (r1 r2 : Part001Request) (t1 t2 : Nat) :
    part001JobId r1 t1 = part001JobId r2 t2 ↔ t1 = t2 := by
  constructor
  · intro h
    unfold part001JobId at h
    have hd := congrArg String.data h
    rw [String.data_append, String.data_append] at hd
    have h2 := List.append_cancel_left hd
    exact natToString_inj (String.ext h2)
  · intro h; subst h; rfl

/-- Two part_001 output names agree exactly when their clocks agree. -/
theorem part001OutputName_eq_iff (r1 r2 : Part001Request) (t1 t2 : Nat) :
    part001OutputName r1 t1 = part001OutputName r2 t2 ↔ t1 = t2 := by
  unfold part001OutputName
  constructor
  · intro h
    have hd := congrArg String.data h
    rw [String.data_append, String.data_append] at hd
    have h2 := List.append_cancel_right hd
    rw [← part001JobId_eq_iff r1 r2 t1 t2]
    exact String.ext h2
  · intro h; subst h; rfl

/-! ### Claim theorems -/

/-- C1 counterexample: the invocation built by executeYtDlp is one
concatenated shell string with the caller text interpolated, and two
different argument vectors collapse to the identical command string
because the sanitizer does not strip double quotes, so the external
process cannot receive the arguments as discrete elements. -/
theorem exec_command_is_interpolated_string :
    executeYtDlpCommand ["a\" \"b"] = executeYtDlpCommand ["a", "b"] ∧
    (["a\" \"b"] : List String) ≠ ["a", "b"] ∧
    executeYtDlpCommand ["https://example.com/v"] = "yt-dlp \"https://example.com/v\"" :=
  ⟨by decide, by decide, by decide⟩

/-- C1 (amended): the argument builder does produce an ordered vector,
but executeYtDlp does not pass it as discrete elements: every
caller-supplied argument is sanitized, double-quoted, and interpolated
into the single shell command string handed to exec. -/
theorem exec_command_interpolates_each_argument :
    ∀ (args : List String) (a : String), a ∈ args →
      (quoteArg a).data <:+: (executeYtDlpCommand args).data := by
  intro args a h
  have hm : quoteArg a ∈ args.map quoteArg := List.mem_map_of_mem quoteArg h
  have hi := mem_joinSpace_infix hm
  show (quoteArg a).data <:+: ("yt-dlp " ++ joinSpace (args.map quoteArg)).data
  rw [String.data_append]
  obtain ⟨u, v, huv⟩ := hi
  exact ⟨"yt-dlp ".data ++ u, v, by rw [← huv]; simp⟩

/-- C1 witness at a concrete argument vector. -/
theorem exec_command_interpolates_each_argument_witness :
    ("https://x" ∈ (["https://x"] : List String)) ∧
    (quoteArg "https://x").data <:+: (executeYtDlpCommand ["https://x"]).data :=
  ⟨by decide, exec_command_interpolates_each_argument ["https://x"] "https://x" (by decide)⟩

/-- C2: the sanitizer output is exactly the input with the blocked
characters deleted: it contains no blocked character, and the non-blocked
characters are preserved in their relative order (the output is the
order-preserving filter of the input). -/
theorem sanitize_strips_blocked_and_preserves_rest :
    ∀ s : String,
      (sanitizeShellInput s).data = s.data.filter (fun c => !isBlockedChar c) ∧
      ∀ c : Char, c ∈ (sanitizeShellInput s).data → isBlockedChar c = false := by
  intro s
  have he : (sanitizeShellInput s).data = sanitizeChars s.data := rfl
  constructor
  · rw [he, sanitizeChars_eq_filter]
  · intro c hc
    rw [he, sanitizeChars_eq_filter] at hc
    have := (List.mem_filter.mp hc).2
    simpa using this

/-- C2 witness at a concrete string containing a blocked character. -/
theorem sanitize_strips_blocked_and_preserves_rest_witness :
    ('a' ∈ (sanitizeShellInput "a$b").data) ∧ isBlockedChar 'a' = false :=
  ⟨by decide, (sanitize_strips_blocked_and_preserves_rest "a$b").2 'a' (by decide)⟩

/-- C3 counterexample: a file whose age exactly equals the configured
ttl survives the sweep, because the deletion test is strictly
greater-than; the claim's eligibility at exact equality fails. -/
theorem gc_keeps_file_aged_exactly_ttl :
    cleanupOldFiles 1800000 serverJsMaxAge [⟨"old.mp4", 0⟩] = [⟨"old.mp4", 0⟩] ∧
    (1800000 : Int) - 0 ≥ serverJsMaxAge :=
  ⟨by decide, by decide⟩

/-- C3 (amended): a sweep keeps a file exactly when its age is at most
the ttl; so nothing younger than the ttl is ever deleted, everything
strictly older is deleted, and a file aged exactly the ttl is kept. -/
theorem gc_sweep_keeps_iff_age_le_ttl :
    ∀ (now maxAge : Int) (files : List TempFile) (f : TempFile),
      f ∈ cleanupOldFiles now maxAge files ↔ f ∈ files ∧ now - f.mtimeMs ≤ maxAge := by
  intro now maxAge files f
  simp [cleanupOldFiles, sweepDeletes, List.mem_filter, not_lt]

/-- C4 counterexample: with two candidates sharing the job-id prefix the
resolver returns the first directory entry, which here is strictly
smaller than the other candidate. -/
theorem resolver_picks_first_not_largest :
    resolveDownloadFile "yt-17" [⟨"yt-17.part", 5⟩, ⟨"yt-17.mp4", 900⟩] = some "yt-17.part" ∧
    (5 : Nat) < 900 ∧ ("yt-17.part" : String) ≠ "yt-17.mp4" :=
  ⟨by decide, by decide, by decide⟩

/-- C4 (amended): the resolver returns the first entry of the directory
listing whose name starts with the job id, independent of sizes. -/
theorem resolver_returns_first_matching_entry :
    ∀ (id : String) (entries : List DirEntry),
      resolveDownloadFile id entries =
        (entries.find? (fun e => id.data.isPrefixOf e.name.data)).map (fun e => e.name) := by
  intro id entries
  induction entries with
  | nil => rfl
  | cons e rest ih =>
    by_cases h : id.data.isPrefixOf e.name.data
    · simp [resolveDownloadFile, List.filter_cons, List.find?_cons, h]
    · simp only [resolveDownloadFile, List.filter_cons, List.find?_cons] at *
      simp only [h]
      simpa [h] using ih

/-- C5 counterexample: the catch branch of the src/server.js download
handler performs no deletion, so a partial artifact written before the
failure is still present when the error response is returned. -/
theorem serverjs_failure_path_leaves_partial :
    serverJsFailureCleanup "job.mp4" ["job.mp4"] = ["job.mp4"] ∧
    ("job.mp4" ∈ serverJsFailureCleanup "job.mp4" ["job.mp4"]) :=
  ⟨rfl, by decide⟩

/-- C5 (amended): only the part_000 variant deletes the partial artifact
on the failure path; the src/server.js variant leaves the directory
untouched, deferring any partial file to the ttl sweep. -/
theorem failure_path_cleanup_by_variant :
    (∀ (fp : String) (dir : List String),
      (part000FailureCleanup fp dir).contains fp = false) ∧
    (∀ (fp : String) (dir : List String), serverJsFailureCleanup fp dir = dir) := by
  constructor
  · intro fp dir
    unfold part000FailureCleanup
    by_cases h : dir.contains fp
    · rw [if_pos h]
      simp
    · rw [if_neg h]
      simpa using h
  · intro fp dir
    rfl

/-- C6 counterexample: a zero-byte artifact passes the existence check
and yields a success response reporting size zero, so success does not
imply the referenced file is non-empty. -/
theorem success_response_with_empty_artifact :
    downloadSuccessCheck "u.mp4" [("u.mp4", 0)] = some 0 ∧ ¬ (0 : Nat) > 0 :=
  ⟨by decide, by decide⟩

/-- C6 (amended): a success response is produced exactly when the
artifact file exists, and the size it reports is the stored file's size;
no positivity of the size is required. -/
theorem success_response_requires_existing_file :
    (∀ (fp : String) (dir : List (String × Nat)) (n : Nat),
      downloadSuccessCheck fp dir = some n → (fp, n) ∈ dir) ∧
    (∀ (fp : String) (dir : List (String × Nat)),
      (downloadSuccessCheck fp dir).isSome = true ↔ ∃ e ∈ dir, e.1 = fp) := by
  constructor
  · intro fp dir n h
    unfold downloadSuccessCheck at h
    rw [Option.map_eq_some'] at h
    obtain ⟨e, he, hn⟩ := h
    have h1 : e.1 = fp := by simpa using List.find?_some he
    have h2 : e ∈ dir := List.mem_of_find?_eq_some he
    have he2 : e = (fp, n) := by
      cases e
      simp at h1 hn
      simp [h1, hn]
    rw [← he2]
    exact h2
  · intro fp dir
    unfold downloadSuccessCheck
    rw [Option.isSome_map', List.find?_isSome]
    constructor
    · rintro ⟨e, he, hp⟩
      exact ⟨e, he, by simpa using hp⟩
    · rintro ⟨e, he, hp⟩
      exact ⟨e, he, by simpa using hp⟩

/-- C6 witness at a concrete directory. -/
theorem success_response_requires_existing_file_witness :
    downloadSuccessCheck "v.mp4" [("v.mp4", 7)] = some 7 ∧ ("v.mp4", 7) ∈ [("v.mp4", 7)] :=
  ⟨by decide, success_response_requires_existing_file.1 "v.mp4" [("v.mp4", 7)] 7 (by decide)⟩

/-- C7 counterexample: two distinct part_001 requests accepted at the
same millisecond instant receive the identical job id and the identical
output filename, because the id is derived from the clock alone. -/
theorem same_instant_jobs_collide :
    (⟨"https://youtu.be/aaaaaaaaaaa", none, "video"⟩ : Part001Request) ≠
      ⟨"https://youtu.be/bbbbbbbbbbb", none, "video"⟩ ∧
    part001JobId ⟨"https://youtu.be/aaaaaaaaaaa", none, "video"⟩ 1720000000000 =
      part001JobId ⟨"https://youtu.be/bbbbbbbbbbb", none, "video"⟩ 1720000000000 ∧
    part001OutputName ⟨"https://youtu.be/aaaaaaaaaaa", none, "video"⟩ 1720000000000 =
      part001OutputName ⟨"https://youtu.be/bbbbbbbbbbb", none, "video"⟩ 1720000000000 :=
  ⟨by decide, rfl, rfl⟩

/-- C7 (amended): in the part_001 variant, job ids and output filenames
coincide exactly when the creation instants coincide: requests at
distinct instants get distinct non-colliding identities, while requests
at the same instant collide. -/
theorem job_identity_distinct_iff_instants_distinct :
    ∀ (r1 r2 : Part001Request) (t1 t2 : Nat),
      (part001JobId r1 t1 = part001JobId r2 t2 ↔ t1 = t2) ∧
      (part001OutputName r1 t1 = part001OutputName r2 t2 ↔ t1 = t2) := by
  intro r1 r2 t1 t2
  exact ⟨part001JobId_eq_iff r1 r2 t1 t2, part001OutputName_eq_iff r1 r2 t1 t2⟩

/-- C8 counterexample: on an unrecognized input the normalizeUrl
function does not return the input unchanged; it returns null. -/
theorem normalizer_returns_none_on_unrecognized :
    normalizeUrl "hello world" = none ∧ normalizeUrl "hello world" ≠ some "hello world" :=
  ⟨by decide, by decide⟩

/-- C8 (amended): for input matching none of the three recognized link
forms, normalizeUrl returns null, and the call-site composition
normalizeUrl(url) or-else url therefore passes the input through
unchanged, so the normalization step as used never rejects. -/
theorem unrecognized_source_passes_through_unchanged :
    ∀ s : String,
      searchCapture shortsPat 11 s.data = none →
      searchCapture shortHostPat 11 s.data = none →
      searchCapture watchPat 11 s.data = none →
      normalizeUrl s = none ∧ normalizeUrlOrSelf s = s := by
  intro s h1 h2 h3
  have hn : normalizeUrl s = none := by
    unfold normalizeUrl
    rw [normalizeUrlChars_eq_none h1 h2 h3]
    rfl
  refine ⟨hn, ?_⟩
  unfold normalizeUrlOrSelf
  rw [hn]
  rfl

/-- C8 witness at a concrete unrecognized string. -/
theorem unrecognized_source_passes_through_unchanged_witness :
    (searchCapture shortsPat 11 ("hello world").data = none ∧
      searchCapture shortHostPat 11 ("hello world").data = none ∧
      searchCapture watchPat 11 ("hello world").data = none) ∧
    (normalizeUrl "hello world" = none ∧ normalizeUrlOrSelf "hello world" = "hello world") :=
  ⟨⟨by decide, by decide, by decide⟩,
    unrecognized_source_passes_through_unchanged "hello world"
      (by decide) (by decide) (by decide)⟩

/-- C9: the normalizer is a pure function (determinism) and is
idempotent: whenever it recognizes x and returns y, it returns y again
on y; and every already-canonical watch link, the stem followed by an
eleven-character id, is returned unchanged. -/
theorem normalizeUrl_idempotent_and_canonical_fixed :
    (∀ x y : String, normalizeUrl x = some y → normalizeUrl y = some y) ∧
    (∀ id : List Char, id.length = 11 → (∀ c ∈ id, isIdChar c = true) →
      normalizeUrl (String.mk (watchStem ++ id)) = some (String.mk (watchStem ++ id))) := by
  constructor
  · intro x y h
    unfold normalizeUrl at h
    rw [Option.map_eq_some'] at h
    obtain ⟨m, hm, hy⟩ := h
    subst hy
    show (normalizeUrlChars m).map String.mk = some (String.mk m)
    rw [normalizeUrlChars_idem hm]
    rfl
  · intro id h1 h2
    show (normalizeUrlChars (watchStem ++ id)).map String.mk =
      some (String.mk (watchStem ++ id))
    rw [normalizeUrlChars_canonical h1 h2]
    rfl

/-- C9 witness: a short-host link normalizes to the canonical watch
link, and normalizing that result returns it unchanged. -/
theorem normalizeUrl_idempotent_and_canonical_fixed_witness :
    normalizeUrl "https://youtu.be/dQw4w9WgXcQ" =
      some "https://www.youtube.com/watch?v=dQw4w9WgXcQ" ∧
    normalizeUrl "https://www.youtube.com/watch?v=dQw4w9WgXcQ" =
      some "https://www.youtube.com/watch?v=dQw4w9WgXcQ" :=
  ⟨by decide, normalizeUrl_idempotent_and_canonical_fixed.1
    "https://youtu.be/dQw4w9WgXcQ" "https://www.youtube.com/watch?v=dQw4w9WgXcQ"
    (by decide)⟩

/-- C10: the retrieval endpoints operate on exactly the join of the
artifact directory with the raw parameter, answer 404 exactly when that
resolved path is absent, and nothing confines the resolved path: a
dot-dot parameter resolves outside the artifact directory and is served
when such a file exists. -/
theorem retrieval_serves_joined_path_unconfined :
    (∀ (dir : List (List String)) (name : String),
      (fileEndpoint dir name = none ↔ joinPath tempDirSegs name ∉ dir) ∧
      ∀ p : List String, fileEndpoint dir name = some p → p = joinPath tempDirSegs name) ∧
    joinPath tempDirSegs "../secret.mp4" = ["app", "secret.mp4"] ∧
    tempDirSegs.isPrefixOf ["app", "secret.mp4"] = false ∧
    ∀ dir : List (List String), ["app", "secret.mp4"] ∈ dir →
      fileEndpoint dir "../secret.mp4" = some ["app", "secret.mp4"] := by
  refine ⟨?_, by decide, by decide, ?_⟩
  · intro dir name
    constructor
    · unfold fileEndpoint
      split
      · simpa using by assumption
      · simpa using by assumption
    · intro p hp
      unfold fileEndpoint at hp
      split at hp
      · injection hp with hp
        exact hp.symm
      · exact absurd hp (by simp)
  · intro dir h
    unfold fileEndpoint
    rw [show joinPath tempDirSegs "../secret.mp4" = ["app", "secret.mp4"] from by decide]
    rw [if_pos h]

/-- C10 witness at a concrete directory containing the escaped path. -/
theorem retrieval_serves_joined_path_unconfined_witness :
    (["app", "secret.mp4"] ∈ ([["app", "secret.mp4"]] : List (List String))) ∧
    fileEndpoint [["app", "secret.mp4"]] "../secret.mp4" = some ["app", "secret.mp4"] :=
  ⟨by decide,
    retrieval_serves_joined_path_unconfined.2.2.2 [["app", "secret.mp4"]] (by decide)⟩
